import Mathlib

/-!
# Pomodoro countdown timer (`cmd/pomo/main.go`)

A shallow embedding of the timer's `model`, its `Update` event handler, `Init`,
and the argument handling of `main`, followed by the properties of the
natural-language specification.

Modelling conventions.

* Go `int` and `time.Duration` are 64-bit signed integers: they are represented
  by `Int`, and every arithmetic operation of the source that can leave the
  64-bit range is wrapped explicitly with `wrapInt64`.
* `time.Time` instants are represented by their position on the nanosecond time
  line (`Int`); `Time.Sub` saturates as the Go library does.
* `float64` is idealised: finite values are exact rationals (no rounding), and
  the IEEE special values that a division by a zero session length produces
  (`+Inf`, `-Inf`, `NaN`) are kept as separate constructors of `F64`.
* The bubbletea runtime and the bubbles progress bar are external collaborators.
  Commands are represented symbolically by `Cmd`; the progress bar is
  represented by its `Width` and the log of operations this program applied to it.
-/

namespace Pomo

/-! ## Machine integers and durations -/

/-- Smallest 64-bit signed integer. -/
def minInt64 : Int := -(2 ^ 63)

/-- Largest 64-bit signed integer. -/
def maxInt64 : Int := 2 ^ 63 - 1

/-- Two's-complement wrap-around of a mathematical integer into the 64-bit signed range. -/
def wrapInt64 (x : Int) : Int := (x + 2 ^ 63) % 2 ^ 64 - 2 ^ 63

/-- Go `time.Duration`: a signed 64-bit count of nanoseconds. -/
abbrev Duration := Int

/-- Go `time.Time`, as a position on the nanosecond time line. -/
abbrev Time := Int

/-- Go `time.Second`. -/
def Second : Duration := 1000000000

/-- Go `time.Minute`. -/
def Minute : Duration := 60 * Second

/-- Go `Time.Sub`: the difference `t - u`, saturated to the range of a `Duration`. -/
def Time.Sub (t u : Time) : Duration :=
  if t - u > maxInt64 then maxInt64
  else if t - u < minInt64 then minInt64
  else t - u

/-! ## Idealised `float64` -/

/-- Idealised `float64`: exact rationals plus the IEEE special values. -/
inductive F64 where
  | fin (q : ℚ)
  | posInf
  | negInf
  | nan
  deriving DecidableEq

/-- Go `Duration.Seconds`: the duration as a floating-point number of seconds (always finite). -/
def Duration.Seconds (d : Duration) : ℚ := (d : ℚ) / 1000000000

/-- IEEE quotient `a / b` of two finite values; a zero divisor (here always `+0`) gives
`+Inf`, `-Inf` or `NaN` according to the sign of the dividend. -/
def F64.quot (a b : ℚ) : F64 :=
  if b = 0 then
    if 0 < a then F64.posInf else if a < 0 then F64.negInf else F64.nan
  else F64.fin (a / b)

/-- IEEE difference `x - y`. -/
def F64.sub : F64 → F64 → F64
  | F64.nan, _ => F64.nan
  | _, F64.nan => F64.nan
  | F64.fin a, F64.fin b => F64.fin (a - b)
  | F64.fin _, F64.posInf => F64.negInf
  | F64.fin _, F64.negInf => F64.posInf
  | F64.posInf, F64.posInf => F64.nan
  | F64.posInf, _ => F64.posInf
  | F64.negInf, F64.negInf => F64.nan
  | F64.negInf, _ => F64.negInf

/-- IEEE sum `x + y`. -/
def F64.add : F64 → F64 → F64
  | F64.nan, _ => F64.nan
  | _, F64.nan => F64.nan
  | F64.fin a, F64.fin b => F64.fin (a + b)
  | F64.fin _, F64.posInf => F64.posInf
  | F64.fin _, F64.negInf => F64.negInf
  | F64.posInf, F64.negInf => F64.nan
  | F64.posInf, _ => F64.posInf
  | F64.negInf, F64.posInf => F64.nan
  | F64.negInf, _ => F64.negInf

/-- IEEE comparison `x <= y` (false as soon as one side is `NaN`). -/
def F64.le : F64 → F64 → Bool
  | F64.nan, _ => false
  | _, F64.nan => false
  | F64.negInf, _ => true
  | _, F64.posInf => true
  | F64.fin a, F64.fin b => decide (a ≤ b)
  | F64.fin _, F64.negInf => false
  | F64.posInf, _ => false

/-- IEEE comparison `x >= y`. -/
def F64.ge (x y : F64) : Bool := F64.le y x

/-! ## Messages, commands and the progress bar -/

namespace progress

/-- An operation this program applies to the bubbles progress bar. -/
inductive Op where
  /-- The call `IncrPercent(v)`. -/
  | IncrPercent (v : F64)
  /-- The call `Update(msg)` with a `progress.FrameMsg` carrying `id` and `tag`. -/
  | Update (id tag : Int)
  deriving DecidableEq

/-- The bubbles `progress.Model`: the exported `Width` field, and the operations applied
to the bar so far (most recent first), which stand for its internal animation state. -/
structure Model where
  Width : Int
  ops : List Op
  deriving DecidableEq

end progress

/-- Go `tea.Cmd` values this program can return. -/
inductive Cmd where
  /-- The nil command. -/
  | nil
  /-- The quit command `tea.Quit`. -/
  | Quit
  /-- The command `tea.Tick(d, ...)` whose callback wraps the fired instant as a `tick` message. -/
  | Tick (d : Duration)
  /-- The command (possibly nil) that the progress bar handed back for the operation `op`;
  it belongs to the bar and never delivers a `tick` message. -/
  | bar (op : progress.Op)
  /-- The command `tea.Batch(a, b)`. -/
  | Batch (a b : Cmd)
  deriving DecidableEq

/-- Go `tea.Msg` values delivered to `Update`, by dynamic type. -/
inductive Msg where
  /-- A `tea.WindowSizeMsg`. -/
  | WindowSizeMsg (Width Height : Int)
  /-- A `tea.KeyMsg`, represented by the value of its `String()` method. -/
  | KeyMsg (str : String)
  /-- A `progress.FrameMsg`. -/
  | FrameMsg (id tag : Int)
  /-- A `tick` carrying the instant at which the timer fired. -/
  | tick (t : Time)
  /-- A message of any other type. -/
  | other (kind : Nat)
  deriving DecidableEq

/-- Go `progress.Model.Update` on a frame message: the bar advances its animation and
hands back a command. -/
def progress.Model.Update (p : progress.Model) (id tag : Int) : progress.Model × Cmd :=
  ({ p with ops := progress.Op.Update id tag :: p.ops }, Cmd.bar (progress.Op.Update id tag))

/-- Go `progress.Model.IncrPercent`: the bar moves its target by `v` and hands back a command. -/
def progress.Model.IncrPercent (p : progress.Model) (v : F64) : progress.Model × Cmd :=
  ({ p with ops := progress.Op.IncrPercent v :: p.ops }, Cmd.bar (progress.Op.IncrPercent v))

/-! ## The timer model -/

/-- Constant `padding`. -/
def padding : Int := 2

/-- Constant `maxWidth`. -/
def maxWidth : Int := 80

/-- Constant `tickTimeSeconds`. -/
def tickTimeSeconds : Duration := 2 * Second

/-- Type `state`. -/
inductive state where
  | inProgress
  | complete
  deriving DecidableEq

/-- Type `model`. -/
structure model where
  state : state
  percentComplete : F64
  elapsed : Duration
  progress : progress.Model
  sessionLength : Duration
  containerHeight : Int
  containerWidth : Int
  deriving DecidableEq

/-- Method `model.tickCmd`. -/
def model.tickCmd (_m : model) : Cmd := Cmd.Tick tickTimeSeconds

/-- Method `model.Init`. -/
def model.Init (m : model) : Cmd := m.tickCmd

/-- Method `model.Update`; the package variable `starttime` is passed explicitly. -/
def model.Update (starttime : Time) (m : model) (msg : Msg) : model × Cmd :=
  match msg with
  | Msg.WindowSizeMsg Width Height =>
    let m := { m with containerHeight := Height }
    let m := { m with containerWidth := Width }
    let m := { m with progress := { m.progress with
      Width := min (wrapInt64 (wrapInt64 (Width - padding * 2) - 4)) maxWidth } }
    (m, Cmd.nil)
  | Msg.KeyMsg str =>
    if str = "esc" ∨ str = "ctrl+c" ∨ str = "q" then (m, Cmd.Quit)
    else (m, Cmd.nil)
  | Msg.FrameMsg id tag =>
    let r := m.progress.Update id tag
    let m := { m with progress := r.1 }
    (m, r.2)
  | Msg.tick t =>
    let currentPercentComplete := m.percentComplete
    if F64.ge currentPercentComplete (F64.fin 1) then
      let m := { m with state := state.complete }
      (m, Cmd.Quit)
    else
      let m := { m with elapsed := Time.Sub t starttime }
      let m := { m with
        percentComplete := F64.quot (Duration.Seconds m.elapsed) (Duration.Seconds m.sessionLength) }
      let r := m.progress.IncrPercent (F64.sub m.percentComplete currentPercentComplete)
      let m := { m with progress := r.1 }
      (m, Cmd.Batch m.tickCmd r.2)
  | Msg.other _ => (m, Cmd.nil)

/-! ## Startup -/

/-- Decimal value of an ASCII digit, `none` for any other character. -/
def digitVal (c : Char) : Option Nat :=
  if '0' ≤ c ∧ c ≤ '9' then some (c.toNat - '0'.toNat) else none

/-- Value of a run of decimal digits read left to right onto the accumulator `n`;
`none` as soon as a character is not a digit. -/
def parseDigits : List Char → Nat → Option Nat
  | [], n => some n
  | c :: cs, n =>
    match digitVal c with
    | some d => parseDigits cs (n * 10 + d)
    | none => none

/-- Go `strconv.Atoi` with a 64-bit `int`: an optional sign followed by at least one
decimal digit, whose value fits the 64-bit signed range; `none` stands for a non-nil error. -/
def Atoi (s : String) : Option Int :=
  match s.toList with
  | [] => none
  | c :: cs =>
    let digits := if c = '-' ∨ c = '+' then cs else c :: cs
    if digits = [] then none
    else
      match parseDigits digits 0 with
      | none => none
      | some n =>
        if c = '-' then
          if n ≤ 2 ^ 63 then some (-(n : Int)) else none
        else
          if n < 2 ^ 63 then some (n : Int) else none

/-- Go `strconv.Itoa`. -/
def Itoa (n : Int) : String := toString n

/-- Go conversion `int(x)` of a finite floating-point value: truncation toward zero. -/
def truncToInt (q : ℚ) : Int := Int.tdiv q.num q.den

/-- The value `model{sessionLength: d, progress: bar}`: every other field is zero. -/
def newModel (d : Duration) (bar : progress.Model) : model :=
  { state := state.inProgress
    percentComplete := F64.fin 0
    elapsed := 0
    progress := bar
    sessionLength := d
    containerHeight := 0
    containerWidth := 0 }

/-- What `main` does before it hands control to the bubbletea runtime. -/
inductive Outcome where
  /-- The process printed `stdout` and called `os.Exit(code)`. -/
  | exit (stdout : List String) (code : Int)
  /-- The process printed `stdout`, set `starttime`, and started the interactive
  session on the model `m`. -/
  | run (stdout : List String) (starttime : Time) (m : model)
  deriving DecidableEq

/-- Function `main` up to the call of `tea.NewProgram(m, ...).Run()`. `args` is `os.Args`
(program name first), `now` is the instant returned by `time.Now()`, `bar` is the value
returned by `progress.New(...)`. -/
def main (args : List String) (now : Time) (bar : progress.Model) : Outcome :=
  let parsed : Option Int :=
    if h : args.length > 1 then Atoi (args.get ⟨1, h⟩) else some 25
  match parsed with
  | none =>
    Outcome.exit
      ["Argument must be an integer representing the number of minutes to run the pomodoro"] 1
  | some minutes =>
    let starttime := now
    let m := newModel (wrapInt64 (minutes * Minute)) bar
    let secs := Itoa (truncToInt (Duration.Seconds m.sessionLength))
    Outcome.run ["SessionLength (sec): " ++ secs] starttime m

/-! ## Runs of the event loop and observations on commands -/

/-- The model after the runtime delivered the messages `msgs`, in order. -/
def runMsgs (starttime : Time) (m : model) (msgs : List Msg) : model :=
  msgs.foldl (fun acc msg => (model.Update starttime acc msg).1) m

/-- The pairs returned by `Update` for each of the messages `msgs`, in order. -/
def trace (starttime : Time) : model → List Msg → List (model × Cmd)
  | _, [] => []
  | m, msg :: rest =>
    model.Update starttime m msg :: trace starttime (model.Update starttime m msg).1 rest

/-- The intervals of the `tick` requests contained in a command. -/
def tickRequests : Cmd → List Duration
  | Cmd.nil => []
  | Cmd.Quit => []
  | Cmd.Tick d => [d]
  | Cmd.bar _ => []
  | Cmd.Batch a b => tickRequests a ++ tickRequests b

/-- The progress deltas handed to the progress bar by a command. -/
def deltas : Cmd → List F64
  | Cmd.nil => []
  | Cmd.Quit => []
  | Cmd.Tick _ => []
  | Cmd.bar (progress.Op.IncrPercent v) => [v]
  | Cmd.bar (progress.Op.Update _ _) => []
  | Cmd.Batch a b => deltas a ++ deltas b

/-- Whether a command contains the quit command. -/
def quits : Cmd → Bool
  | Cmd.Quit => true
  | Cmd.Batch a b => quits a || quits b
  | _ => false

/-- The IEEE sum of a list of values, from `0`. -/
def F64.sum (xs : List F64) : F64 := xs.foldl F64.add (F64.fin 0)

/-- The progress deltas handed to the progress bar while the runtime delivered the
messages `msgs`, in order. -/
def emitted (starttime : Time) : model → List Msg → List F64
  | _, [] => []
  | m, msg :: rest =>
    deltas (model.Update starttime m msg).2 ++
      emitted starttime (model.Update starttime m msg).1 rest

/-- The invariant of the event loop: a model in state `complete` stores a
`percentComplete` that is `>= 1.0`. -/
def CompleteInv (m : model) : Prop :=
  m.state = state.complete → F64.ge m.percentComplete (F64.fin 1) = true

/-- A model of a session of length `S` that is still counting: in progress, with a stored
`percentComplete` that is not `>= 1.0`. -/
def Counting (S : Duration) (m : model) : Prop :=
  m.state = state.inProgress ∧ m.sessionLength = S ∧
    F64.ge m.percentComplete (F64.fin 1) = false

/-- A progress bar as `progress.New` returns it: default width, nothing applied yet. -/
def demoBar : progress.Model := { Width := 40, ops := [] }

/-! ## Basic facts about the arithmetic -/

theorem wrapInt64_of_inRange (x : Int) (hlo : minInt64 ≤ x) (hhi : x ≤ maxInt64) :
    wrapInt64 x = x := by
  unfold wrapInt64
  unfold minInt64 at hlo
  unfold maxInt64 at hhi
  rw [Int.emod_eq_of_lt (by omega) (by omega)]
  omega

theorem Time.Sub_of_inRange (t u : Time) (hlo : minInt64 ≤ t - u) (hhi : t - u ≤ maxInt64) :
    Time.Sub t u = t - u := by
  simp only [Time.Sub, minInt64, maxInt64, Time, Duration] at *
  split_ifs <;> omega

theorem Time.Sub_le_max (t u : Time) : Time.Sub t u ≤ maxInt64 := by
  simp only [Time.Sub, minInt64, maxInt64, Time, Duration] at *
  split_ifs <;> omega

theorem Time.Sub_lt_of_lt (t u : Time) (d : Duration) (hd : minInt64 < d) (h : t - u < d) :
    Time.Sub t u < d := by
  simp only [Time.Sub, minInt64, maxInt64, Time, Duration] at *
  split_ifs <;> omega

theorem Time.Sub_ge_of_ge (t u : Time) (d : Duration) (hd : d ≤ maxInt64) (h : d ≤ t - u) :
    d ≤ Time.Sub t u := by
  simp only [Time.Sub, minInt64, maxInt64, Time, Duration] at *
  split_ifs <;> omega

theorem Time.Sub_mono (t t' u : Time) (h : t ≤ t') : Time.Sub t u ≤ Time.Sub t' u := by
  simp only [Time.Sub, minInt64, maxInt64, Time, Duration] at *
  split_ifs <;> omega

/-! ## `Update`, one message type at a time -/

theorem Update_tick_terminal (starttime : Time) (m : model) (t : Time)
    (h : F64.ge m.percentComplete (F64.fin 1) = true) :
    m.Update starttime (Msg.tick t) = ({ m with state := state.complete }, Cmd.Quit) := by
  simp [model.Update, h]

theorem Update_tick_live (starttime : Time) (m : model) (t : Time)
    (h : F64.ge m.percentComplete (F64.fin 1) = false) :
    m.Update starttime (Msg.tick t) =
      ({ m with
          elapsed := Time.Sub t starttime
          percentComplete :=
            F64.quot (Duration.Seconds (Time.Sub t starttime)) (Duration.Seconds m.sessionLength)
          progress := { m.progress with
            ops := progress.Op.IncrPercent
              (F64.sub
                (F64.quot (Duration.Seconds (Time.Sub t starttime))
                  (Duration.Seconds m.sessionLength))
                m.percentComplete) :: m.progress.ops } },
        Cmd.Batch (Cmd.Tick tickTimeSeconds)
          (Cmd.bar (progress.Op.IncrPercent
            (F64.sub
              (F64.quot (Duration.Seconds (Time.Sub t starttime))
                (Duration.Seconds m.sessionLength))
              m.percentComplete)))) := by
  simp [model.Update, h, progress.Model.IncrPercent, model.tickCmd]

theorem Update_WindowSizeMsg (starttime : Time) (m : model) (w h : Int) :
    m.Update starttime (Msg.WindowSizeMsg w h) =
      ({ m with
          containerHeight := h
          containerWidth := w
          progress := { m.progress with
            Width := min (wrapInt64 (wrapInt64 (w - padding * 2) - 4)) maxWidth } },
        Cmd.nil) := by
  simp [model.Update]

theorem Update_FrameMsg (starttime : Time) (m : model) (id tag : Int) :
    m.Update starttime (Msg.FrameMsg id tag) =
      ({ m with progress := { m.progress with
          ops := progress.Op.Update id tag :: m.progress.ops } },
        Cmd.bar (progress.Op.Update id tag)) := by
  simp [model.Update, progress.Model.Update]

theorem Update_other (starttime : Time) (m : model) (k : Nat) :
    m.Update starttime (Msg.other k) = (m, Cmd.nil) := by
  simp [model.Update]

theorem Update_KeyMsg (starttime : Time) (m : model) (key : String) :
    m.Update starttime (Msg.KeyMsg key) =
      (m, if key = "esc" ∨ key = "ctrl+c" ∨ key = "q" then Cmd.Quit else Cmd.nil) := by
  by_cases hk : key = "esc" ∨ key = "ctrl+c" ∨ key = "q"
  · simp only [model.Update, if_pos hk]
  · simp only [model.Update, if_neg hk]

/-! ## Facts about the idealised floating-point operations -/

theorem F64.ge_fin_one (p : ℚ) : F64.ge (F64.fin p) (F64.fin 1) = decide (1 ≤ p) := by
  simp [F64.ge, F64.le]

theorem Seconds_eq_zero_iff (d : Duration) : Duration.Seconds d = 0 ↔ d = 0 := by
  unfold Duration.Seconds
  constructor
  · intro h
    have h1 : (d : ℚ) = 0 := by
      rcases div_eq_zero_iff.mp h with h0 | h0
      · exact h0
      · norm_num at h0
    exact_mod_cast h1
  · intro h
    simp [h]

theorem Seconds_div_Seconds (a b : Duration) :
    Duration.Seconds a / Duration.Seconds b = (a : ℚ) / (b : ℚ) := by
  unfold Duration.Seconds
  rw [div_div_div_cancel_right₀ (by norm_num)]

theorem quot_Seconds_of_ne (a b : Duration) (hb : b ≠ 0) :
    F64.quot (Duration.Seconds a) (Duration.Seconds b) = F64.fin ((a : ℚ) / (b : ℚ)) := by
  unfold F64.quot
  rw [if_neg (by rw [Seconds_eq_zero_iff]; exact hb), Seconds_div_Seconds]

/-! ## Key presses, resizes and tick scheduling -/

/-- C5 (quit immediacy). For every model and every key event, `Update` returns the model
unchanged; the returned command is the quit command exactly when the key's string is
`q`, `esc` or `ctrl+c`, and it is the nil command exactly for every other key. -/
theorem quit_immediacy (starttime : Time) (m : model) (key : String) :
    (m.Update starttime (Msg.KeyMsg key)).1 = m ∧
    ((m.Update starttime (Msg.KeyMsg key)).2 = Cmd.Quit ↔
      (key = "q" ∨ key = "esc" ∨ key = "ctrl+c")) ∧
    ((m.Update starttime (Msg.KeyMsg key)).2 = Cmd.nil ↔
      ¬(key = "q" ∨ key = "esc" ∨ key = "ctrl+c")) := by
  rw [Update_KeyMsg]
  by_cases hk : key = "esc" ∨ key = "ctrl+c" ∨ key = "q"
  · have hk2 : key = "q" ∨ key = "esc" ∨ key = "ctrl+c" := by tauto
    simp [if_pos hk, hk2]
  · have hk2 : ¬(key = "q" ∨ key = "esc" ∨ key = "ctrl+c") := by tauto
    simp [if_neg hk, hk2]

/-- C6 (resize independence). For every model and every resize event with width `w` and
height `h`, `Update` returns no command and changes nothing but the stored viewport and the
width of the progress bar: `elapsed`, `percentComplete`, `state` and `sessionLength` are
unchanged, `containerWidth = w`, `containerHeight = h`, and the bar width is
`min(w - padding*2 - 4, maxWidth)` in Go `int` arithmetic, which is at most 80 and equals
`min(w - 8, 80)` whenever `w - 8` is representable. -/
theorem resize_independence (starttime : Time) (m : model) (w h : Int) :
    (m.Update starttime (Msg.WindowSizeMsg w h)).2 = Cmd.nil ∧
    (m.Update starttime (Msg.WindowSizeMsg w h)).1 =
      { m with
        containerHeight := h
        containerWidth := w
        progress := { m.progress with
          Width := (m.Update starttime (Msg.WindowSizeMsg w h)).1.progress.Width } } ∧
    (m.Update starttime (Msg.WindowSizeMsg w h)).1.elapsed = m.elapsed ∧
    (m.Update starttime (Msg.WindowSizeMsg w h)).1.percentComplete = m.percentComplete ∧
    (m.Update starttime (Msg.WindowSizeMsg w h)).1.state = m.state ∧
    (m.Update starttime (Msg.WindowSizeMsg w h)).1.sessionLength = m.sessionLength ∧
    (m.Update starttime (Msg.WindowSizeMsg w h)).1.containerWidth = w ∧
    (m.Update starttime (Msg.WindowSizeMsg w h)).1.containerHeight = h ∧
    (m.Update starttime (Msg.WindowSizeMsg w h)).1.progress.Width =
      min (wrapInt64 (wrapInt64 (w - padding * 2) - 4)) maxWidth ∧
    (m.Update starttime (Msg.WindowSizeMsg w h)).1.progress.Width ≤ 80 ∧
    (minInt64 + 8 ≤ w → w ≤ maxInt64 →
      (m.Update starttime (Msg.WindowSizeMsg w h)).1.progress.Width = min (w - 8) 80) := by
  rw [Update_WindowSizeMsg]
  refine ⟨rfl, rfl, rfl, rfl, rfl, rfl, rfl, rfl, rfl, ?_, ?_⟩
  · exact min_le_right _ _
  · intro hlo hhi
    have h1 : wrapInt64 (w - padding * 2) = w - 4 := by
      rw [wrapInt64_of_inRange]
      · simp [padding]
      · simp only [padding, minInt64] at *
        omega
      · simp only [padding, maxInt64] at *
        omega
    have h2 : wrapInt64 (w - 4 - 4) = w - 8 := by
      rw [wrapInt64_of_inRange]
      · omega
      · simp only [minInt64] at *
        omega
      · simp only [maxInt64] at *
        omega
    show min (wrapInt64 (wrapInt64 (w - padding * 2) - 4)) maxWidth = min (w - 8) 80
    rw [h1, h2]
    rfl

/-- Witness for `resize_independence`: an 50-column terminal gives a 42-column bar. -/
theorem resize_independence_witness :
    (model.Update 0 (newModel Minute demoBar) (Msg.WindowSizeMsg 50 24)).1.progress.Width
      = min (50 - 8) 80 :=
  (resize_independence 0 (newModel Minute demoBar) 50 24).2.2.2.2.2.2.2.2.2.2
    (by decide) (by decide)

/-- C9 (self-rescheduling ticks). `Init` requests exactly one tick, at the interval of two
seconds. For every model and tick event: if the tick is not terminal (the stored
`percentComplete` is not `>= 1.0`) the returned command contains exactly one tick request,
at two seconds, and no quit; if the tick is terminal the returned command is the quit
command alone. No resize, key, animation-frame or unknown message requests a tick. -/
theorem self_rescheduling_ticks (starttime : Time) (m : model) :
    tickRequests m.Init = [2 * Second] ∧
    (∀ t, F64.ge m.percentComplete (F64.fin 1) = false →
      tickRequests (m.Update starttime (Msg.tick t)).2 = [2 * Second] ∧
      quits (m.Update starttime (Msg.tick t)).2 = false) ∧
    (∀ t, F64.ge m.percentComplete (F64.fin 1) = true →
      (m.Update starttime (Msg.tick t)).2 = Cmd.Quit ∧
      tickRequests (m.Update starttime (Msg.tick t)).2 = []) ∧
    (∀ w h, tickRequests (m.Update starttime (Msg.WindowSizeMsg w h)).2 = []) ∧
    (∀ key, tickRequests (m.Update starttime (Msg.KeyMsg key)).2 = []) ∧
    (∀ id tag, tickRequests (m.Update starttime (Msg.FrameMsg id tag)).2 = []) ∧
    (∀ k, tickRequests (m.Update starttime (Msg.other k)).2 = []) := by
  refine ⟨rfl, ?_, ?_, ?_, ?_, ?_, ?_⟩
  · intro t h
    rw [Update_tick_live starttime m t h]
    exact ⟨rfl, rfl⟩
  · intro t h
    rw [Update_tick_terminal starttime m t h]
    exact ⟨rfl, rfl⟩
  · intro w h
    rw [Update_WindowSizeMsg]
    rfl
  · intro key
    rw [Update_KeyMsg]
    split_ifs <;> rfl
  · intro id tag
    rw [Update_FrameMsg]
    rfl
  · intro k
    rw [Update_other]
    rfl

/-- Witness for `self_rescheduling_ticks`: the first tick of a one-minute session is not
terminal and requests exactly one further tick. -/
theorem self_rescheduling_ticks_witness :
    tickRequests (model.Update 0 (newModel Minute demoBar) (Msg.tick (2 * Second))).2
        = [2 * Second] ∧
    quits (model.Update 0 (newModel Minute demoBar) (Msg.tick (2 * Second))).2 = false :=
  (self_rescheduling_ticks 0 (newModel Minute demoBar)).2.1 (2 * Second) (by decide!)

/-! ## Tick handling -/

theorem runMsgs_nil (starttime : Time) (m : model) : runMsgs starttime m [] = m := rfl

theorem runMsgs_cons (starttime : Time) (m : model) (msg : Msg) (rest : List Msg) :
    runMsgs starttime m (msg :: rest)
      = runMsgs starttime (m.Update starttime msg).1 rest := rfl

theorem runMsgs_append (starttime : Time) (m : model) (xs ys : List Msg) :
    runMsgs starttime m (xs ++ ys) = runMsgs starttime (runMsgs starttime m xs) ys := by
  simp [runMsgs, List.foldl_append]

theorem newModel_ge (d : Duration) (bar : progress.Model) :
    F64.ge (newModel d bar).percentComplete (F64.fin 1) = false := by
  simp [newModel, F64.ge_fin_one]

/-- The first tick at the deadline `starttime + S` leaves a fresh model in progress with
`percentComplete` exactly `1`. -/
theorem tick_at_deadline (starttime : Time) (S : Duration) (bar : progress.Model)
    (hS : 0 < S) (hmax : S ≤ maxInt64) :
    (runMsgs starttime (newModel S bar) [Msg.tick (starttime + S)]).state = state.inProgress ∧
    (runMsgs starttime (newModel S bar) [Msg.tick (starttime + S)]).percentComplete
      = F64.fin 1 := by
  rw [runMsgs_cons, runMsgs_nil, Update_tick_live _ _ _ (newModel_ge S bar)]
  refine ⟨rfl, ?_⟩
  have hsub : Time.Sub (starttime + S) starttime = S := by
    rw [Time.Sub_of_inRange]
    · simp only [Time, Duration] at *
      omega
    · simp only [minInt64, Time, Duration] at *
      omega
    · simp only [Time, Duration] at *
      omega
  have hne : S ≠ 0 := by
    simp only [Duration] at *
    omega
  show F64.quot (Duration.Seconds (Time.Sub (starttime + S) starttime))
      (Duration.Seconds S) = F64.fin 1
  rw [hsub, quot_Seconds_of_ne S S hne, div_self (by exact_mod_cast hne)]

/-- C4 (the completion test uses the previous percentage). For every model and tick with
timestamp `t`: if the stored `percentComplete` is `>= 1.0`, `Update` sets `state` to
`complete`, returns the quit command and leaves `elapsed` and `percentComplete` unchanged;
otherwise it sets `elapsed` to `t.Sub(starttime)` (which is `t - starttime` whenever that
difference is representable), sets `percentComplete` to the quotient of `elapsed` in
seconds by `sessionLength` in seconds, and leaves `state` unchanged whatever the new
quotient is. A model in progress whose `percentComplete` is `>= 1.0` is reachable from the
initial model. -/
theorem tick_tests_previous_percentage (starttime : Time) (m : model) (t : Time) :
    (F64.ge m.percentComplete (F64.fin 1) = true →
      (m.Update starttime (Msg.tick t)).1.state = state.complete ∧
      (m.Update starttime (Msg.tick t)).2 = Cmd.Quit ∧
      (m.Update starttime (Msg.tick t)).1.elapsed = m.elapsed ∧
      (m.Update starttime (Msg.tick t)).1.percentComplete = m.percentComplete) ∧
    (F64.ge m.percentComplete (F64.fin 1) = false →
      (m.Update starttime (Msg.tick t)).1.elapsed = Time.Sub t starttime ∧
      (m.Update starttime (Msg.tick t)).1.percentComplete =
        F64.quot (Duration.Seconds (Time.Sub t starttime))
          (Duration.Seconds m.sessionLength) ∧
      (m.Update starttime (Msg.tick t)).1.state = m.state ∧
      (m.Update starttime (Msg.tick t)).1.sessionLength = m.sessionLength) ∧
    (minInt64 ≤ t - starttime → t - starttime ≤ maxInt64 →
      Time.Sub t starttime = t - starttime) ∧
    (∃ S bar,
      (runMsgs starttime (newModel S bar) [Msg.tick (starttime + S)]).state
        = state.inProgress ∧
      F64.ge (runMsgs starttime (newModel S bar) [Msg.tick (starttime + S)]).percentComplete
        (F64.fin 1) = true) := by
  refine ⟨?_, ?_, Time.Sub_of_inRange t starttime, ?_⟩
  · intro h
    rw [Update_tick_terminal starttime m t h]
    exact ⟨rfl, rfl, rfl, rfl⟩
  · intro h
    rw [Update_tick_live starttime m t h]
    exact ⟨rfl, rfl, rfl, rfl⟩
  · refine ⟨Minute, demoBar, ?_⟩
    have h := tick_at_deadline starttime Minute demoBar (by decide) (by decide)
    refine ⟨h.1, ?_⟩
    rw [h.2, F64.ge_fin_one]
    simp

/-- Witness for `tick_tests_previous_percentage`: in a one-minute session the tick at
60 s is not terminal, stores a `percentComplete` of `1` and leaves the state in progress;
the tick at 62 s then finds `1 >= 1.0`, completes and quits without touching `elapsed`. -/
theorem tick_tests_previous_percentage_witness :
    ((model.Update 0 (newModel Minute demoBar) (Msg.tick Minute)).1.elapsed
        = Time.Sub Minute 0 ∧
      (model.Update 0 (newModel Minute demoBar) (Msg.tick Minute)).1.percentComplete =
        F64.quot (Duration.Seconds (Time.Sub Minute 0))
          (Duration.Seconds (newModel Minute demoBar).sessionLength) ∧
      (model.Update 0 (newModel Minute demoBar) (Msg.tick Minute)).1.state
        = (newModel Minute demoBar).state ∧
      (model.Update 0 (newModel Minute demoBar) (Msg.tick Minute)).1.sessionLength
        = (newModel Minute demoBar).sessionLength) ∧
    ((model.Update 0 (runMsgs 0 (newModel Minute demoBar) [Msg.tick Minute])
        (Msg.tick (62 * Second))).1.state = state.complete ∧
      (model.Update 0 (runMsgs 0 (newModel Minute demoBar) [Msg.tick Minute])
        (Msg.tick (62 * Second))).2 = Cmd.Quit ∧
      (model.Update 0 (runMsgs 0 (newModel Minute demoBar) [Msg.tick Minute])
        (Msg.tick (62 * Second))).1.elapsed
        = (runMsgs 0 (newModel Minute demoBar) [Msg.tick Minute]).elapsed ∧
      (model.Update 0 (runMsgs 0 (newModel Minute demoBar) [Msg.tick Minute])
        (Msg.tick (62 * Second))).1.percentComplete
        = (runMsgs 0 (newModel Minute demoBar) [Msg.tick Minute]).percentComplete) :=
  ⟨(tick_tests_previous_percentage 0 (newModel Minute demoBar) Minute).2.1 (by decide!),
   (tick_tests_previous_percentage 0 (runMsgs 0 (newModel Minute demoBar) [Msg.tick Minute])
      (62 * Second)).1 (by decide!)⟩

/-! ## The terminal state -/

/-- `Update` never leaves the state `complete`. -/
theorem Update_state_complete (starttime : Time) (m : model) (msg : Msg)
    (h : m.state = state.complete) : (m.Update starttime msg).1.state = state.complete := by
  cases msg with
  | WindowSizeMsg w ht => rw [Update_WindowSizeMsg]; exact h
  | KeyMsg key => rw [Update_KeyMsg]; exact h
  | FrameMsg id tag => rw [Update_FrameMsg]; exact h
  | tick t =>
    cases hge : F64.ge m.percentComplete (F64.fin 1) with
    | true => rw [Update_tick_terminal starttime m t hge]
    | false => rw [Update_tick_live starttime m t hge]; exact h
  | other k => rw [Update_other]; exact h

theorem CompleteInv_Update (starttime : Time) (m : model) (msg : Msg) (h : CompleteInv m) :
    CompleteInv (m.Update starttime msg).1 := by
  cases msg with
  | WindowSizeMsg w ht => rw [Update_WindowSizeMsg]; exact h
  | KeyMsg key => rw [Update_KeyMsg]; exact h
  | FrameMsg id tag => rw [Update_FrameMsg]; exact h
  | tick t =>
    cases hge : F64.ge m.percentComplete (F64.fin 1) with
    | true =>
      rw [Update_tick_terminal starttime m t hge]
      intro _
      exact hge
    | false =>
      rw [Update_tick_live starttime m t hge]
      intro hc
      have hc2 : m.state = state.complete := hc
      rw [h hc2] at hge
      cases hge
  | other k => rw [Update_other]; exact h

theorem CompleteInv_runMsgs (starttime : Time) (msgs : List Msg) :
    ∀ m : model, CompleteInv m → CompleteInv (runMsgs starttime m msgs) := by
  induction msgs with
  | nil => intro m h; exact h
  | cons msg rest ih =>
    intro m h
    rw [runMsgs_cons]
    exact ih _ (CompleteInv_Update starttime m msg h)

/-- A tick delivered to a completed model that satisfies the invariant changes nothing. -/
theorem Update_tick_of_complete (starttime : Time) (m : model) (t : Time)
    (hc : m.state = state.complete) (hge : F64.ge m.percentComplete (F64.fin 1) = true) :
    m.Update starttime (Msg.tick t) = (m, Cmd.Quit) := by
  rw [Update_tick_terminal starttime m t hge, ← hc]

theorem runMsgs_ticks_of_complete (starttime : Time) (m : model)
    (hc : m.state = state.complete) (hge : F64.ge m.percentComplete (F64.fin 1) = true)
    (ts : List Time) : runMsgs starttime m (ts.map Msg.tick) = m := by
  induction ts with
  | nil => rfl
  | cons t rest ih =>
    rw [List.map_cons, runMsgs_cons, Update_tick_of_complete starttime m t hc hge]
    exact ih

/-- C2 (terminal monotonicity). For every model reached from a model in progress (in
particular from the initial model) by any finite sequence of messages: if its state is
`complete`, then delivering any further ticks leaves `percentComplete`, `elapsed` and the
state `complete` unchanged, each such tick returning the quit command; and no message of
any kind takes the state from `complete` back to `inProgress`. -/
theorem terminal_monotonicity (starttime : Time) (m0 : model) (msgs : List Msg)
    (h0 : m0.state = state.inProgress)
    (hc : (runMsgs starttime m0 msgs).state = state.complete) :
    (∀ ts : List Time,
      (runMsgs starttime (runMsgs starttime m0 msgs) (ts.map Msg.tick)).percentComplete
        = (runMsgs starttime m0 msgs).percentComplete ∧
      (runMsgs starttime (runMsgs starttime m0 msgs) (ts.map Msg.tick)).elapsed
        = (runMsgs starttime m0 msgs).elapsed ∧
      (runMsgs starttime (runMsgs starttime m0 msgs) (ts.map Msg.tick)).state
        = state.complete) ∧
    (∀ t : Time,
      (runMsgs starttime m0 msgs).Update starttime (Msg.tick t)
        = (runMsgs starttime m0 msgs, Cmd.Quit)) ∧
    (∀ more : List Msg,
      (runMsgs starttime (runMsgs starttime m0 msgs) more).state = state.complete) := by
  have hinv0 : CompleteInv m0 := by
    intro h
    rw [h0] at h
    cases h
  have hge := CompleteInv_runMsgs starttime msgs m0 hinv0 hc
  refine ⟨?_, ?_, ?_⟩
  · intro ts
    rw [runMsgs_ticks_of_complete starttime _ hc hge ts]
    exact ⟨rfl, rfl, hc⟩
  · intro t
    exact Update_tick_of_complete starttime _ t hc hge
  · intro more
    generalize runMsgs starttime m0 msgs = m at hc
    induction more generalizing m with
    | nil => exact hc
    | cons msg rest ih =>
      rw [runMsgs_cons]
      exact ih _ (Update_state_complete starttime m msg hc)

/-- Witness for `terminal_monotonicity`: a one-minute session is complete after the ticks
at 60 s and 62 s, and the ticks at 64 s and 66 s change nothing. -/
theorem terminal_monotonicity_witness :
    (runMsgs 0 (runMsgs 0 (newModel Minute demoBar)
        [Msg.tick (60 * Second), Msg.KeyMsg "x", Msg.tick (62 * Second)])
        ([64 * Second, 66 * Second].map Msg.tick)).percentComplete
      = (runMsgs 0 (newModel Minute demoBar)
        [Msg.tick (60 * Second), Msg.KeyMsg "x", Msg.tick (62 * Second)]).percentComplete ∧
    (runMsgs 0 (runMsgs 0 (newModel Minute demoBar)
        [Msg.tick (60 * Second), Msg.KeyMsg "x", Msg.tick (62 * Second)])
        ([64 * Second, 66 * Second].map Msg.tick)).elapsed
      = (runMsgs 0 (newModel Minute demoBar)
        [Msg.tick (60 * Second), Msg.KeyMsg "x", Msg.tick (62 * Second)]).elapsed ∧
    (runMsgs 0 (runMsgs 0 (newModel Minute demoBar)
        [Msg.tick (60 * Second), Msg.KeyMsg "x", Msg.tick (62 * Second)])
        ([64 * Second, 66 * Second].map Msg.tick)).state
      = state.complete :=
  (terminal_monotonicity 0 (newModel Minute demoBar)
    [Msg.tick (60 * Second), Msg.KeyMsg "x", Msg.tick (62 * Second)]
    rfl (by decide!)).1 [64 * Second, 66 * Second]

/-! ## The completion bound -/

theorem trace_append (starttime : Time) (xs ys : List Msg) :
    ∀ m : model, trace starttime m (xs ++ ys)
      = trace starttime m xs ++ trace starttime (runMsgs starttime m xs) ys := by
  induction xs with
  | nil => intro m; rfl
  | cons x rest ih =>
    intro m
    show model.Update starttime m x :: trace starttime (model.Update starttime m x).1 (rest ++ ys)
      = model.Update starttime m x ::
        (trace starttime (model.Update starttime m x).1 rest ++
          trace starttime (runMsgs starttime (model.Update starttime m x).1 rest) ys)
    rw [ih]

theorem Counting_newModel (S : Duration) (bar : progress.Model) :
    Counting S (newModel S bar) :=
  ⟨rfl, rfl, newModel_ge S bar⟩

/-- The quotient stored by a live tick is below `1` exactly when the tick is before the
deadline. -/
theorem ge_quot_iff (starttime t : Time) (S : Duration) (hS : 0 < S) (hmax : S ≤ maxInt64) :
    F64.ge (F64.quot (Duration.Seconds (Time.Sub t starttime)) (Duration.Seconds S))
      (F64.fin 1) = decide (starttime + S ≤ t) := by
  have hne : S ≠ 0 := by
    simp only [Duration] at *
    omega
  have hpos : (0 : ℚ) < (S : ℚ) := by exact_mod_cast hS
  rw [quot_Seconds_of_ne _ S hne, F64.ge_fin_one]
  by_cases h : starttime + S ≤ t
  · have h1 : S ≤ Time.Sub t starttime :=
      Time.Sub_ge_of_ge t starttime S hmax (by simp only [Time, Duration] at *; omega)
    have h2 : (1 : ℚ) ≤ ((Time.Sub t starttime : Int) : ℚ) / (S : ℚ) := by
      rw [le_div_iff₀ hpos, one_mul]
      exact_mod_cast h1
    simp [h, h2]
  · have h1 : Time.Sub t starttime < S :=
      Time.Sub_lt_of_lt t starttime S
        (by simp only [minInt64, Duration] at *; omega)
        (by simp only [Time, Duration] at *; omega)
    have h2 : ¬ (1 : ℚ) ≤ ((Time.Sub t starttime : Int) : ℚ) / (S : ℚ) := by
      rw [not_le, div_lt_one hpos]
      exact_mod_cast h1
    simp [h, h2]

theorem Counting_tick (starttime : Time) (S : Duration) (m : model) (t : Time)
    (hS : 0 < S) (hmax : S ≤ maxInt64) (hm : Counting S m) :
    (m.Update starttime (Msg.tick t)).1.state = state.inProgress ∧
    (m.Update starttime (Msg.tick t)).1.sessionLength = S ∧
    quits (m.Update starttime (Msg.tick t)).2 = false ∧
    F64.ge (m.Update starttime (Msg.tick t)).1.percentComplete (F64.fin 1)
      = decide (starttime + S ≤ t) := by
  obtain ⟨hst, hlen, hge⟩ := hm
  rw [Update_tick_live starttime m t hge]
  refine ⟨hst, hlen, rfl, ?_⟩
  show F64.ge (F64.quot (Duration.Seconds (Time.Sub t starttime))
    (Duration.Seconds m.sessionLength)) (F64.fin 1) = decide (starttime + S ≤ t)
  rw [hlen]
  exact ge_quot_iff starttime t S hS hmax

theorem Counting_trace (starttime : Time) (S : Duration) (hS : 0 < S) (hmax : S ≤ maxInt64)
    (pre : List Time) :
    ∀ m : model, Counting S m → (∀ u ∈ pre, u < starttime + S) →
      (∀ r ∈ trace starttime m (pre.map Msg.tick),
        r.1.state = state.inProgress ∧ quits r.2 = false) ∧
      Counting S (runMsgs starttime m (pre.map Msg.tick)) := by
  induction pre with
  | nil =>
    intro m hm _
    refine ⟨?_, hm⟩
    intro r hr
    cases hr
  | cons u rest ih =>
    intro m hm hpre
    have hu : u < starttime + S := hpre u (List.mem_cons_self _ _)
    obtain ⟨h1, h2, h3, h4⟩ := Counting_tick starttime S m u hS hmax hm
    have hnext : Counting S (m.Update starttime (Msg.tick u)).1 := by
      refine ⟨h1, h2, ?_⟩
      rw [h4]
      simp only [decide_eq_false_iff_not, not_le]
      exact hu
    obtain ⟨ih1, ih2⟩ := ih _ hnext (fun v hv => hpre v (List.mem_cons_of_mem _ hv))
    refine ⟨?_, ?_⟩
    · intro r hr
      simp only [List.map_cons, trace, List.mem_cons] at hr
      rcases hr with hr | hr
      · rw [hr]
        exact ⟨h1, h3⟩
      · exact ih1 r hr
    · rw [List.map_cons, runMsgs_cons]
      exact ih2

/-- C1 as stated fails: in a one-minute session started at instant 0, the tick at 60 s is
the first tick whose timestamp is at or after `starttime + S`, yet it leaves the state in
progress and does not quit; completion is detected by the following tick, at 62 s, whose
delay after the session end is not less than the tick interval. -/
theorem completion_bound_counterexample :
    (trace 0 (newModel Minute demoBar)
        [Msg.tick (58 * Second), Msg.tick (60 * Second), Msg.tick (62 * Second)]).map
      (fun r => (r.1.state, quits r.2))
      = [(state.inProgress, false), (state.inProgress, false), (state.complete, true)] ∧
    (0 : Time) + Minute ≤ 60 * Second ∧
    ¬ (62 * Second - ((0 : Time) + Minute) < tickTimeSeconds) := by
  decide!

/-- C1, amended (completion is detected one tick late). For every representable session
length `S > 0`: every tick whose timestamp is before `starttime + S`, and also the first
tick `t` whose timestamp is at or after `starttime + S`, leaves the state in progress and
signals no termination; after that tick the stored `percentComplete` is `>= 1.0`, and the
next tick `t2` delivered sets the state to `complete` and returns the quit command. With
ticks spaced `tickTimeSeconds` apart, the delay between the session end and the tick that
detects completion is at least one tick interval and less than two. -/
theorem completion_one_tick_late (starttime : Time) (S : Duration) (bar : progress.Model)
    (pre : List Time) (t t2 : Time)
    (hS : 0 < S) (hmax : S ≤ maxInt64)
    (hpre : ∀ u ∈ pre, u < starttime + S) (ht : starttime + S ≤ t) :
    (∀ r ∈ trace starttime (newModel S bar) ((pre ++ [t]).map Msg.tick),
      r.1.state = state.inProgress ∧ quits r.2 = false) ∧
    F64.ge (runMsgs starttime (newModel S bar) ((pre ++ [t]).map Msg.tick)).percentComplete
      (F64.fin 1) = true ∧
    ((runMsgs starttime (newModel S bar) ((pre ++ [t]).map Msg.tick)).Update starttime
      (Msg.tick t2)).1.state = state.complete ∧
    ((runMsgs starttime (newModel S bar) ((pre ++ [t]).map Msg.tick)).Update starttime
      (Msg.tick t2)).2 = Cmd.Quit ∧
    (t - tickTimeSeconds < starttime + S → t2 = t + tickTimeSeconds →
      tickTimeSeconds ≤ t2 - (starttime + S) ∧
      t2 - (starttime + S) < 2 * tickTimeSeconds) := by
  obtain ⟨hpre1, hpre2⟩ :=
    Counting_trace starttime S hS hmax pre (newModel S bar) (Counting_newModel S bar) hpre
  obtain ⟨h1, _, h3, h4⟩ :=
    Counting_tick starttime S (runMsgs starttime (newModel S bar) (pre.map Msg.tick)) t
      hS hmax hpre2
  have hrun : runMsgs starttime (newModel S bar) ((pre ++ [t]).map Msg.tick)
      = ((runMsgs starttime (newModel S bar) (pre.map Msg.tick)).Update starttime
          (Msg.tick t)).1 := by
    rw [List.map_append, runMsgs_append]
    rfl
  have hge : F64.ge (runMsgs starttime (newModel S bar)
      ((pre ++ [t]).map Msg.tick)).percentComplete (F64.fin 1) = true := by
    rw [hrun, h4]
    simp only [decide_eq_true_eq]
    exact ht
  refine ⟨?_, hge, ?_, ?_, ?_⟩
  · intro r hr
    rw [List.map_append, trace_append, List.mem_append] at hr
    rcases hr with hr | hr
    · exact hpre1 r hr
    · simp only [List.map_cons, List.map_nil, trace, List.mem_singleton] at hr
      rw [hr]
      exact ⟨h1, h3⟩
  · rw [Update_tick_terminal starttime _ t2 hge]
  · rw [Update_tick_terminal starttime _ t2 hge]
  · intro hprev hnext
    simp only [tickTimeSeconds, Second, Time, Duration] at *
    omega

/-- Witness for `completion_one_tick_late`: a one-minute session with ticks at 58 s, 60 s
and 62 s. -/
theorem completion_one_tick_late_witness :
    ((runMsgs 0 (newModel Minute demoBar) (([58 * Second] ++ [60 * Second]).map Msg.tick)).Update
      0 (Msg.tick (62 * Second))).1.state = state.complete ∧
    ((runMsgs 0 (newModel Minute demoBar) (([58 * Second] ++ [60 * Second]).map Msg.tick)).Update
      0 (Msg.tick (62 * Second))).2 = Cmd.Quit ∧
    (tickTimeSeconds ≤ 62 * Second - (0 + Minute) ∧
      62 * Second - (0 + Minute) < 2 * tickTimeSeconds) :=
  have h := completion_one_tick_late 0 Minute demoBar [58 * Second] (60 * Second)
    (62 * Second) (by decide) (by decide) (by decide) (by decide)
  ⟨h.2.2.1, h.2.2.2.1, h.2.2.2.2 (by decide) (by decide)⟩

/-! ## Startup -/

theorem main_no_argument (args : List String) (now : Time) (bar : progress.Model)
    (h : args.length ≤ 1) :
    main args now bar
      = Outcome.run ["SessionLength (sec): 1500"] now (newModel (25 * Minute) bar) := by
  have hn : ¬ args.length > 1 := by omega
  have hw : wrapInt64 (25 * Minute) = 25 * Minute := by decide
  have hs : Itoa (truncToInt (Duration.Seconds (25 * Minute))) = "1500" := by decide!
  simp only [main, dif_neg hn, newModel, hw, hs]
  rfl

theorem main_parsed (args : List String) (now : Time) (bar : progress.Model)
    (h : 1 < args.length) (n : Int) (hn : Atoi (args.get ⟨1, h⟩) = some n) :
    main args now bar
      = Outcome.run
          ["SessionLength (sec): " ++
            Itoa (truncToInt (Duration.Seconds (wrapInt64 (n * Minute))))]
          now (newModel (wrapInt64 (n * Minute)) bar) := by
  have hgt : args.length > 1 := h
  simp only [main, dif_pos hgt, hn, newModel]

theorem main_rejected (args : List String) (now : Time) (bar : progress.Model)
    (h : 1 < args.length) (hn : Atoi (args.get ⟨1, h⟩) = none) :
    main args now bar
      = Outcome.exit
          ["Argument must be an integer representing the number of minutes to run the pomodoro"]
          1 := by
  have hgt : args.length > 1 := h
  simp only [main, dif_pos hgt, hn]

/-- Every session `main` starts is the fresh model of some session length, started at `now`. -/
theorem main_run_inv (args : List String) (now : Time) (bar : progress.Model)
    (out : List String) (st : Time) (m : model)
    (h : main args now bar = Outcome.run out st m) :
    st = now ∧ ∃ minutes : Int, m = newModel (wrapInt64 (minutes * Minute)) bar ∧
      ((args.length ≤ 1 ∧ minutes = 25) ∨
        ∃ hlen : 1 < args.length, Atoi (args.get ⟨1, hlen⟩) = some minutes) := by
  by_cases hlen : 1 < args.length
  · cases hp : Atoi (args.get ⟨1, hlen⟩) with
    | none =>
      rw [main_rejected args now bar hlen hp] at h
      cases h
    | some n =>
      rw [main_parsed args now bar hlen n hp] at h
      injection h with h1 h2 h3
      exact ⟨h2.symm, n, h3.symm, Or.inr ⟨hlen, hp⟩⟩
  · have hle : args.length ≤ 1 := by omega
    rw [main_no_argument args now bar hle] at h
    injection h with h1 h2 h3
    exact ⟨h2.symm, 25, by rw [← h3]; rfl, Or.inl ⟨hle, rfl⟩⟩

/-- Within 153722867 minutes either way, the session length in nanoseconds does not wrap. -/
theorem wrapInt64_minutes (n : Int) (hlo : -153722867 ≤ n) (hhi : n ≤ 153722867) :
    wrapInt64 (n * Minute) = n * Minute := by
  apply wrapInt64_of_inRange
  · simp only [minInt64, Minute, Second, Duration] at *
    omega
  · simp only [maxInt64, Minute, Second, Duration] at *
    omega

/-- C7 as stated fails: the argument `153722868` parses as an integer, the session starts,
but `time.Duration(153722868) * time.Minute` overflows 64 bits and the session length is
negative, not 153722868 minutes. -/
theorem argument_parsing_counterexample :
    Atoi "153722868" = some 153722868 ∧
    main ["pomo", "153722868"] 0 demoBar
      = Outcome.run ["SessionLength (sec): -9223371993"] 0
          (newModel (-9223371993709551616) demoBar) ∧
    (newModel (-9223371993709551616) demoBar).sessionLength ≠ 153722868 * Minute := by
  decide!

/-- C7, amended (argument parsing). With no argument, startup prints the session length
and starts the session with `sessionLength` of 25 minutes. When the first argument parses
as the integer `n` and `n` minutes fits a 64-bit nanosecond duration (`|n| <= 153722867`),
startup starts the session with `sessionLength` of `n` minutes; in general the session
length is `n` minutes wrapped to 64 bits. When the first argument does not parse
(`Atoi` fails), startup prints the diagnostic and exits with status 1 without building a
model. -/
theorem argument_parsing (args : List String) (now : Time) (bar : progress.Model) :
    (args.length ≤ 1 →
      main args now bar
        = Outcome.run ["SessionLength (sec): 1500"] now (newModel (25 * Minute) bar)) ∧
    (∀ (h : 1 < args.length) (n : Int), Atoi (args.get ⟨1, h⟩) = some n →
      (∃ out, main args now bar
        = Outcome.run out now (newModel (wrapInt64 (n * Minute)) bar)) ∧
      (-153722867 ≤ n → n ≤ 153722867 →
        ∃ out, main args now bar = Outcome.run out now (newModel (n * Minute) bar))) ∧
    (∀ (h : 1 < args.length), Atoi (args.get ⟨1, h⟩) = none →
      main args now bar
        = Outcome.exit
            ["Argument must be an integer representing the number of minutes to run the pomodoro"]
            1) := by
  refine ⟨main_no_argument args now bar, ?_, ?_⟩
  · intro h n hn
    refine ⟨⟨_, main_parsed args now bar h n hn⟩, ?_⟩
    intro hlo hhi
    rw [main_parsed args now bar h n hn, wrapInt64_minutes n hlo hhi]
    exact ⟨_, rfl⟩
  · intro h hn
    exact main_rejected args now bar h hn

/-- Witness for `argument_parsing`: no argument gives 25 minutes, `10` gives ten minutes,
`abc` exits with status 1. -/
theorem argument_parsing_witness :
    main ["pomo"] 7 demoBar
      = Outcome.run ["SessionLength (sec): 1500"] 7 (newModel (25 * Minute) demoBar) ∧
    (∃ out, main ["pomo", "10"] 7 demoBar = Outcome.run out 7 (newModel (10 * Minute) demoBar)) ∧
    main ["pomo", "abc"] 7 demoBar
      = Outcome.exit
          ["Argument must be an integer representing the number of minutes to run the pomodoro"]
          1 :=
  ⟨(argument_parsing ["pomo"] 7 demoBar).1 (by decide),
   ((argument_parsing ["pomo", "10"] 7 demoBar).2.1 (by decide) 10 (by decide)).2
      (by decide) (by decide),
   (argument_parsing ["pomo", "abc"] 7 demoBar).2.2 (by decide) (by decide)⟩

/-- C8 as stated fails: the argument `0` parses, startup does not exit, and the session
length of the model it builds is zero; the argument `-1` gives a negative one. -/
theorem positive_session_length_counterexample :
    main ["pomo", "0"] 0 demoBar
      = Outcome.run ["SessionLength (sec): 0"] 0 (newModel 0 demoBar) ∧
    ¬ (0 < (newModel 0 demoBar).sessionLength) ∧
    main ["pomo", "-1"] 0 demoBar
      = Outcome.run ["SessionLength (sec): -60"] 0 (newModel (-60000000000) demoBar) ∧
    ¬ (0 < (newModel (-60000000000) demoBar).sessionLength) := by
  decide!

/-- C8, amended (sign of the session length). For every argument list on which startup
starts a session on a model `m`: with no argument `m.sessionLength` is strictly positive;
with a first argument that parses as `n`, where `|n| <= 153722867`, `m.sessionLength` is
`n` minutes, hence strictly positive exactly when `n` is. -/
theorem session_length_sign (args : List String) (now : Time) (bar : progress.Model)
    (out : List String) (st : Time) (m : model)
    (hrun : main args now bar = Outcome.run out st m) :
    (args.length ≤ 1 → 0 < m.sessionLength) ∧
    (∀ (h : 1 < args.length) (n : Int), Atoi (args.get ⟨1, h⟩) = some n →
      -153722867 ≤ n → n ≤ 153722867 →
      m.sessionLength = n * Minute ∧ (0 < m.sessionLength ↔ 0 < n)) := by
  refine ⟨?_, ?_⟩
  · intro hlen
    rw [main_no_argument args now bar hlen] at hrun
    injection hrun with _ _ h3
    rw [← h3]
    show (0 : Int) < 25 * Minute
    decide
  · intro h n hn hlo hhi
    rw [main_parsed args now bar h n hn, wrapInt64_minutes n hlo hhi] at hrun
    injection hrun with _ _ h3
    rw [← h3]
    refine ⟨rfl, ?_⟩
    show 0 < n * Minute ↔ 0 < n
    simp only [Minute, Second, Duration]
    omega

/-- Witness for `session_length_sign`: the argument `10` gives a positive session length. -/
theorem session_length_sign_witness :
    (newModel (10 * Minute) demoBar).sessionLength = 10 * Minute ∧
    (0 < (newModel (10 * Minute) demoBar).sessionLength ↔ 0 < (10 : Int)) :=
  (session_length_sign ["pomo", "10"] 7 demoBar ["SessionLength (sec): 600"] 7
    (newModel (10 * Minute) demoBar) (by decide!)).2 (by decide) 10 (by decide)
    (by decide) (by decide)

/-! ## Monotonic progress -/

theorem F64.le_fin (a b : ℚ) : F64.le (F64.fin a) (F64.fin b) = decide (a ≤ b) := rfl

/-- Along ticks with increasing timestamps, a session of positive length never lowers
the stored `percentComplete`. -/
theorem percent_chain (starttime : Time) (S : Duration) (hS : 0 < S) (ts : List Time) :
    ∀ (u : Time) (m : model) (e : Int), m.sessionLength = S →
      m.percentComplete = F64.fin ((e : ℚ) / (S : ℚ)) → e ≤ Time.Sub u starttime →
      List.Chain (fun a b => a < b) u ts →
      List.Chain (fun a b => F64.le a b = true) m.percentComplete
        ((trace starttime m (ts.map Msg.tick)).map (fun r => r.1.percentComplete)) := by
  have hne : S ≠ 0 := by
    simp only [Duration] at *
    omega
  have hpos : (0 : ℚ) < (S : ℚ) := by exact_mod_cast hS
  induction ts with
  | nil =>
    intro u m e _ _ _ _
    exact List.Chain.nil
  | cons t rest ih =>
    intro u m e hlen hp he hchain
    obtain ⟨hut, hrest⟩ := List.chain_cons.mp hchain
    have hmono : Time.Sub u starttime ≤ Time.Sub t starttime :=
      Time.Sub_mono u t starttime (le_of_lt hut)
    simp only [List.map_cons, trace]
    cases hge : F64.ge m.percentComplete (F64.fin 1) with
    | true =>
      rw [Update_tick_terminal starttime m t hge]
      refine List.Chain.cons ?_ ?_
      · show F64.le m.percentComplete m.percentComplete = true
        rw [hp, F64.le_fin]
        simp
      · exact ih t { m with state := state.complete } e hlen hp (le_trans he hmono) hrest
    | false =>
      rw [Update_tick_live starttime m t hge]
      have hq : F64.quot (Duration.Seconds (Time.Sub t starttime))
          (Duration.Seconds m.sessionLength)
            = F64.fin (((Time.Sub t starttime : Int) : ℚ) / (S : ℚ)) := by
        rw [hlen, quot_Seconds_of_ne _ S hne]
      refine List.Chain.cons ?_ ?_
      · show F64.le m.percentComplete (F64.quot (Duration.Seconds (Time.Sub t starttime))
          (Duration.Seconds m.sessionLength)) = true
        rw [hq, hp, F64.le_fin]
        simp only [decide_eq_true_eq]
        apply div_le_div_of_nonneg_right _ (le_of_lt hpos)
        exact_mod_cast le_trans he hmono
      · exact ih t _ (Time.Sub t starttime) hlen hq (le_refl _) hrest

/-- C3 as stated fails: the argument `-1` starts a session of minus one minute; the ticks
at 2 s and 4 s both leave the state in progress, and `percentComplete` goes down from
`-1/30` to `-1/15`. -/
theorem monotonic_progress_counterexample :
    main ["pomo", "-1"] 0 demoBar
      = Outcome.run ["SessionLength (sec): -60"] 0 (newModel (-60000000000) demoBar) ∧
    (trace 0 (newModel (-60000000000) demoBar)
        [Msg.tick (2 * Second), Msg.tick (4 * Second)]).map
      (fun r => (r.1.state, r.1.percentComplete))
      = [(state.inProgress, F64.fin (-1 / 30)), (state.inProgress, F64.fin (-1 / 15))] ∧
    F64.ge (F64.fin (-1 / 15)) (F64.fin (-1 / 30)) = false := by
  decide!

/-- C3, amended (monotonic progress). For every session started by the program whose
session length is strictly positive, and every sequence of ticks with strictly increasing
timestamps delivered from the initial model, the `percentComplete` stored after each tick
is greater than or equal to the one stored after the previous tick. -/
theorem monotonic_progress (args : List String) (now : Time) (bar : progress.Model)
    (out : List String) (st : Time) (m : model) (ts : List Time)
    (hrun : main args now bar = Outcome.run out st m)
    (hpos : 0 < m.sessionLength)
    (hts : List.Chain' (fun a b => a < b) ts) :
    List.Chain' (fun a b => F64.le a b = true)
      ((trace st m (ts.map Msg.tick)).map (fun r => r.1.percentComplete)) := by
  obtain ⟨_, minutes, hm, _⟩ := main_run_inv args now bar out st m hrun
  cases ts with
  | nil => exact List.chain'_nil
  | cons t rest =>
    have hge : F64.ge m.percentComplete (F64.fin 1) = false := by
      rw [hm]
      exact newModel_ge _ bar
    have hne : m.sessionLength ≠ 0 := by
      simp only [Duration] at *
      omega
    simp only [List.map_cons, trace]
    rw [Update_tick_live st m t hge]
    show List.Chain (fun a b => F64.le a b = true) _ _
    exact percent_chain st m.sessionLength hpos rest t _ (Time.Sub t st) rfl
      (quot_Seconds_of_ne _ _ hne) (le_refl _) hts

/-- Witness for `monotonic_progress`: the default session with ticks at 2 s, 4 s and 6 s. -/
theorem monotonic_progress_witness :
    List.Chain' (fun a b => F64.le a b = true)
      ((trace 0 (newModel (25 * Minute) demoBar)
        ([2 * Second, 4 * Second, 6 * Second].map Msg.tick)).map
        (fun r => r.1.percentComplete)) :=
  monotonic_progress ["pomo"] 0 demoBar ["SessionLength (sec): 1500"] 0
    (newModel (25 * Minute) demoBar) [2 * Second, 4 * Second, 6 * Second]
    (by decide!) (by decide) (by simp [Second])

/-! ## Progress deltas -/

theorem emitted_cons (starttime : Time) (m : model) (msg : Msg) (rest : List Msg) :
    emitted starttime m (msg :: rest)
      = deltas (m.Update starttime msg).2 ++ emitted starttime (m.Update starttime msg).1 rest :=
  rfl

/-- A message that is not a tick hands no delta to the bar and leaves the stored
`percentComplete` and the session length alone. -/
theorem Update_not_tick (starttime : Time) (m : model) (msg : Msg)
    (h : ∀ t, msg ≠ Msg.tick t) :
    deltas (m.Update starttime msg).2 = [] ∧
    (m.Update starttime msg).1.percentComplete = m.percentComplete ∧
    (m.Update starttime msg).1.sessionLength = m.sessionLength := by
  cases msg with
  | WindowSizeMsg w ht => rw [Update_WindowSizeMsg]; exact ⟨rfl, rfl, rfl⟩
  | KeyMsg key =>
    rw [Update_KeyMsg]
    refine ⟨?_, rfl, rfl⟩
    split_ifs <;> rfl
  | FrameMsg id tag => rw [Update_FrameMsg]; exact ⟨rfl, rfl, rfl⟩
  | tick t => exact absurd rfl (h t)
  | other k => rw [Update_other]; exact ⟨rfl, rfl, rfl⟩

/-- The zero-length session: a tick after the start stores `+Inf`. -/
theorem quot_zero_length (starttime t : Time) (h : starttime < t) :
    F64.quot (Duration.Seconds (Time.Sub t starttime)) (Duration.Seconds 0) = F64.posInf := by
  have h1 : (1 : Int) ≤ Time.Sub t starttime :=
    Time.Sub_ge_of_ge t starttime 1 (by decide) (by simp only [Time, Duration] at *; omega)
  have h2 : (0 : ℚ) < Duration.Seconds (Time.Sub t starttime) := by
    unfold Duration.Seconds
    apply div_pos _ (by norm_num)
    have h3 : (0 : Int) < Time.Sub t starttime := by
      simp only [Time, Duration] at *
      omega
    exact_mod_cast h3
  have h0 : Duration.Seconds 0 = 0 := by simp [Duration.Seconds]
  unfold F64.quot
  rw [if_pos h0, if_pos h2]

/-- The running sum of the deltas follows the stored `percentComplete`. -/
theorem sum_emitted (starttime : Time) (msgs : List Msg) :
    ∀ (m : model) (acc : F64),
      (m.sessionLength ≠ 0 ∨ ∀ t, Msg.tick t ∈ msgs → starttime < t) →
      acc = m.percentComplete →
      (m.percentComplete = F64.posInf ∨ ∃ p, m.percentComplete = F64.fin p) →
      (emitted starttime m msgs).foldl F64.add acc
        = (runMsgs starttime m msgs).percentComplete := by
  induction msgs with
  | nil =>
    intro m acc _ hacc _
    exact hacc
  | cons msg rest ih =>
    intro m acc hside hacc hshape
    rw [emitted_cons, runMsgs_cons, List.foldl_append]
    by_cases htick : ∃ t, msg = Msg.tick t
    · obtain ⟨t, rfl⟩ := htick
      have hside2 : ∀ m2 : model, m2.sessionLength = m.sessionLength →
          (m2.sessionLength ≠ 0 ∨ ∀ u, Msg.tick u ∈ rest → starttime < u) := by
        intro m2 h2
        rcases hside with h | h
        · exact Or.inl (by rw [h2]; exact h)
        · exact Or.inr (fun u hu => h u (List.mem_cons_of_mem _ hu))
      cases hge : F64.ge m.percentComplete (F64.fin 1) with
      | true =>
        rw [Update_tick_terminal starttime m t hge]
        exact ih _ acc (hside2 _ rfl) hacc hshape
      | false =>
        rw [Update_tick_live starttime m t hge]
        obtain ⟨p, hp⟩ : ∃ p, m.percentComplete = F64.fin p := by
          rcases hshape with h | h
          · rw [h] at hge
            cases hge
          · exact h
        by_cases hS : m.sessionLength = 0
        · have hlt : starttime < t := by
            rcases hside with h | h
            · exact absurd hS h
            · exact h t (List.mem_cons_self _ _)
          have hq : F64.quot (Duration.Seconds (Time.Sub t starttime))
              (Duration.Seconds m.sessionLength) = F64.posInf := by
            rw [hS]
            exact quot_zero_length starttime t hlt
          refine ih _ _ (hside2 _ rfl) ?_ (Or.inl hq)
          show F64.add acc (F64.sub (F64.quot (Duration.Seconds (Time.Sub t starttime))
            (Duration.Seconds m.sessionLength)) m.percentComplete)
              = F64.quot (Duration.Seconds (Time.Sub t starttime))
                (Duration.Seconds m.sessionLength)
          rw [hq, hacc, hp]
          rfl
        · have hq := quot_Seconds_of_ne (Time.Sub t starttime) m.sessionLength hS
          refine ih _ _ (hside2 _ rfl) ?_ (Or.inr ⟨_, hq⟩)
          show F64.add acc (F64.sub (F64.quot (Duration.Seconds (Time.Sub t starttime))
            (Duration.Seconds m.sessionLength)) m.percentComplete)
              = F64.quot (Duration.Seconds (Time.Sub t starttime))
                (Duration.Seconds m.sessionLength)
          rw [hq, hacc, hp]
          show F64.fin (p + (_ - p)) = F64.fin _
          rw [add_sub_cancel]
    · have hnt : ∀ t, msg ≠ Msg.tick t := fun t ht => htick ⟨t, ht⟩
      obtain ⟨hd, hpc, hsl⟩ := Update_not_tick starttime m msg hnt
      rw [hd]
      refine ih _ acc ?_ (by rw [hpc]; exact hacc) (by rw [hpc]; exact hshape)
      rcases hside with h | h
      · exact Or.inl (by rw [hsl]; exact h)
      · exact Or.inr (fun u hu => h u (List.mem_cons_of_mem _ hu))

/-- C10 (progress deltas telescope). A non-terminal tick hands the progress bar exactly one
delta, the newly stored `percentComplete` minus the previous one; a terminal tick and every
message that is not a tick hand it none. Hence, for every sequence of messages delivered
from the initial model, the sum of the deltas handed over so far equals the stored
`percentComplete`, over exact arithmetic: whenever the session length is not zero, and also
for a zero session length as long as every tick comes after the start instant. -/
theorem progress_deltas_telescope (starttime : Time) :
    (∀ (m : model) (t : Time), F64.ge m.percentComplete (F64.fin 1) = false →
      deltas (m.Update starttime (Msg.tick t)).2
        = [F64.sub (m.Update starttime (Msg.tick t)).1.percentComplete m.percentComplete]) ∧
    (∀ (m : model) (t : Time), F64.ge m.percentComplete (F64.fin 1) = true →
      deltas (m.Update starttime (Msg.tick t)).2 = []) ∧
    (∀ (m : model) (msg : Msg), (∀ t, msg ≠ Msg.tick t) →
      deltas (m.Update starttime msg).2 = []) ∧
    (∀ (S : Duration) (bar : progress.Model) (msgs : List Msg),
      (S ≠ 0 ∨ ∀ t, Msg.tick t ∈ msgs → starttime < t) →
      F64.sum (emitted starttime (newModel S bar) msgs)
        = (runMsgs starttime (newModel S bar) msgs).percentComplete) := by
  refine ⟨?_, ?_, ?_, ?_⟩
  · intro m t h
    rw [Update_tick_live starttime m t h]
    rfl
  · intro m t h
    rw [Update_tick_terminal starttime m t h]
    rfl
  · intro m msg h
    exact (Update_not_tick starttime m msg h).1
  · intro S bar msgs h
    exact sum_emitted starttime msgs (newModel S bar) (F64.fin 0) h rfl (Or.inr ⟨0, rfl⟩)

/-- Witness for `progress_deltas_telescope`: a one-minute session with a resize and a key
press between two ticks. -/
theorem progress_deltas_telescope_witness :
    F64.sum (emitted 0 (newModel Minute demoBar)
        [Msg.tick (2 * Second), Msg.WindowSizeMsg 100 30, Msg.KeyMsg "x",
          Msg.tick (4 * Second)])
      = (runMsgs 0 (newModel Minute demoBar)
        [Msg.tick (2 * Second), Msg.WindowSizeMsg 100 30, Msg.KeyMsg "x",
          Msg.tick (4 * Second)]).percentComplete :=
  (progress_deltas_telescope 0).2.2.2 Minute demoBar
    [Msg.tick (2 * Second), Msg.WindowSizeMsg 100 30, Msg.KeyMsg "x", Msg.tick (4 * Second)]
    (Or.inl (by decide))

end Pomo
